import Mathlib

/-!
Verification of the numeric core of the CentralLimitThm visualization app
(`src/app/page.tsx`, lines 22-142), shallowly embedded over the reals.

JavaScript `number` arithmetic is modelled by real arithmetic; the
integer-valued quantities (`n`, `k`, loop indices, range bounds that the
callers pass) are modelled by `ℤ` or `ℕ`.  Loops accumulating a product,
a sum or a running maximum are modelled by `Finset.prod`, `Finset.sum`
and `List.foldl max` respectively, which are exactly the code's
accumulator recurrences.  The `label` field of a series point is a
display-only formatted string (`toFixed`) and carries no numeric
content, so it is omitted from the embedding.
-/

namespace CLT

noncomputable section

/-- `binomialCoefficient(n, k)` from `page.tsx` (lines 22-31): returns 0 when
`k < 0` or `k > n`, 1 when `k = 0` or `k = n`, and otherwise runs the loop
`result *= (n - i) / (i + 1)` for `i` from `0` to `min(k, n-k) - 1`,
starting from `result = 1`. -/
def binomialCoefficient (n k : ℤ) : ℝ :=
  if k < 0 ∨ n < k then 0
  else if k = 0 ∨ k = n then 1
  else ∏ i ∈ Finset.range (min k (n - k)).toNat, (((n : ℝ) - i) / (i + 1))

/-- `binomialPMF(n, k, p)` from `page.tsx` (lines 34-37):
`C(n,k) * p^k * (1-p)^(n-k)`, and 0 when `k` is outside `[0, n]`. -/
def binomialPMF (n k : ℤ) (p : ℝ) : ℝ :=
  if k < 0 ∨ n < k then 0
  else binomialCoefficient n k * p ^ k.toNat * (1 - p) ^ (n - k).toNat

/-- `normalPDF(x, mean, stdDev)` from `page.tsx` (lines 40-44):
`(1/(stdDev·√(2π))) · exp(-0.5·((x-mean)/stdDev)²)`.  Note: the source
performs no validation of `stdDev`. -/
def normalPDF (x mean stdDev : ℝ) : ℝ :=
  (1 / (stdDev * Real.sqrt (2 * Real.pi))) *
    Real.exp (-0.5 * ((x - mean) / stdDev) ^ 2)

/-- The intermediate `t = 1/(1 + p·x)` of `erf` in `page.tsx` (line 65),
with the Abramowitz-Stegun constant `p = 0.3275911`. -/
def erfT (x : ℝ) : ℝ := 1.0 / (1.0 + 0.3275911 * x)

/-- The intermediate `y` of `erf` in `page.tsx` (lines 66-67): the degree-5
polynomial in `t` (Horner form, coefficients `a1..a5`) times `exp(-x·x)`,
subtracted from 1. -/
def erfY (x : ℝ) : ℝ :=
  1.0 - ((((1.061405429 * erfT x + -1.453152027) * erfT x + 1.421413741) *
      erfT x + -0.284496736) * erfT x + 0.254829592) * erfT x *
    Real.exp (-x * x)

/-- `erf(x)` from `page.tsx` (lines 53-70): `sign(x) · y(|x|)` where the
sign is `-1` for `x < 0` and `1` otherwise. -/
def erf (x : ℝ) : ℝ := (if x < 0 then -1 else 1) * erfY |x|

/-- `normalCDF(x, mean, stdDev)` from `page.tsx` (lines 47-49):
`0.5 · (1 + erf((x - mean)/(stdDev·√2)))`. -/
def normalCDF (x mean stdDev : ℝ) : ℝ :=
  0.5 * (1 + erf ((x - mean) / (stdDev * Real.sqrt 2)))

/-- `normalIntegral(a, b, mean, stdDev)` from `page.tsx` (lines 73-80):
`normalCDF(b) - normalCDF(a)`.  No validation of `a` against `b`. -/
def normalIntegral (a b mean stdDev : ℝ) : ℝ :=
  normalCDF b mean stdDev - normalCDF a mean stdDev

/-- `binomialSum(n, p, a, b)` from `page.tsx` (lines 83-92): sums
`binomialPMF(n, k, p)` for integer `k` from `max(0, ⌊a⌋)` to
`min(n, ⌊b⌋)` inclusive (an empty range sums to 0). -/
def binomialSum (n : ℤ) (p a b : ℝ) : ℝ :=
  ∑ k ∈ Finset.Icc (max 0 ⌊a⌋) (min n ⌊b⌋), binomialPMF n k p

/-- One point of the series built by `generateBinomialData` (lines 134-139
of `page.tsx`); the formatted display string `label` is omitted. -/
structure SeriesPoint where
  x : ℝ
  y : ℝ
  normalY : ℝ

/-- The first pass of `generateBinomialData` (lines 105-111): the list
`binomialProbs` of `binomialPMF(n, k, p)` for `k = 0..n`. -/
def binomialProbs (n : ℕ) (p : ℝ) : List ℝ :=
  (List.range (n + 1)).map fun k : ℕ => binomialPMF n k p

/-- The running maximum `maxBinomial` of the first pass (lines 106-111),
accumulated from 0 by `if (prob > maxBinomial) maxBinomial = prob`. -/
def maxBinomial (n : ℕ) (p : ℝ) : ℝ :=
  (binomialProbs n p).foldl max 0

/-- `meanForPDF` from `generateBinomialData` (line 115): `p` in
proportions mode, `n·p` in counts mode. -/
def meanForPDF (n : ℕ) (p : ℝ) (useProportions : Bool) : ℝ :=
  if useProportions then p else n * p

/-- `stdDevForPDF` from `generateBinomialData` (lines 101 and 116):
`√(p(1-p)/n)` in proportions mode, `√(np(1-p))` in counts mode. -/
def stdDevForPDF (n : ℕ) (p : ℝ) (useProportions : Bool) : ℝ :=
  if useProportions then Real.sqrt (p * (1 - p) / n)
  else Real.sqrt (n * p * (1 - p))

/-- The domain value `x` of point `k` (lines 119 and 131): `k/n` in
proportions mode, `k` in counts mode. -/
def xValue (n : ℕ) (useProportions : Bool) (k : ℕ) : ℝ :=
  if useProportions then (k : ℝ) / n else k

/-- The running maximum `maxNormal` of the normal-density pass
(lines 113-122), accumulated from 0. -/
def maxNormal (n : ℕ) (p : ℝ) (useProportions : Bool) : ℝ :=
  ((List.range (n + 1)).map fun k =>
    normalPDF (xValue n useProportions k) (meanForPDF n p useProportions)
      (stdDevForPDF n p useProportions)).foldl max 0

/-- `scaleFactor` from `generateBinomialData` (lines 124-126):
`maxBinomial/maxNormal` when `maxNormal > 0 && maxBinomial > 0`, else 1. -/
def scaleFactor (n : ℕ) (p : ℝ) (useProportions : Bool) : ℝ :=
  if 0 < maxNormal n p useProportions ∧ 0 < maxBinomial n p then
    maxBinomial n p / maxNormal n p useProportions
  else 1

/-- The second pass of `generateBinomialData` (lines 128-141): one
`SeriesPoint` per `k = 0..n`, with `y` the first-pass probability and
`normalY` the scaled normal density. -/
def generateBinomialData (n : ℕ) (p : ℝ) (useProportions : Bool) :
    List SeriesPoint :=
  (List.range (n + 1)).map fun k =>
    { x := xValue n useProportions k
      y := binomialPMF n k p
      normalY :=
        normalPDF (xValue n useProportions k) (meanForPDF n p useProportions)
          (stdDevForPDF n p useProportions) * scaleFactor n p useProportions }

/-- Modelled from the spec: the error taxonomy of spec section 7
(`DomainError`, `InvalidRangeError`).  No error type exists anywhere in
the source; this type exists only to state the spec's error-handling
contract for comparison against the source functions. -/
inductive CoreError where
  | domainError
  | invalidRangeError
deriving DecidableEq

/-- Modelled from the spec: `normalPDF` as spec sections 4.2 and 7
describe it, failing with a `DomainError` when `stddev ≤ 0` and otherwise
returning the density.  The source's `normalPDF` has no such guard. -/
def normalPDFChecked (x mean stdDev : ℝ) : Except CoreError ℝ :=
  if stdDev ≤ 0 then .error .domainError
  else .ok (normalPDF x mean stdDev)

/-- Modelled from the spec: `binomialSum` as spec section 7 describes it,
failing with an `InvalidRangeError` when `xMin ≥ xMax` or a bound lies
outside `[0, n]`.  The source's `binomialSum` has no such guard. -/
def binomialSumChecked (n : ℤ) (p : ℝ) (xMin xMax : ℤ) : Except CoreError ℝ :=
  if xMax ≤ xMin ∨ xMin < 0 ∨ n < xMax then .error .invalidRangeError
  else .ok (binomialSum n p xMin xMax)

end

end CLT

namespace CLT

/-! ### Helper lemmas -/

/-- The loop of `binomialCoefficient` computes the exact binomial
coefficient in real arithmetic: `∏_{i<m} (n-i)/(i+1) = C(n, m)`. -/
lemma prod_ratio_eq_choose (n : ℕ) :
    ∀ m : ℕ, m ≤ n →
      ∏ i ∈ Finset.range m, (((n : ℝ) - i) / (i + 1)) = n.choose m := by
  intro m
  induction m with
  | zero => simp
  | succ m ih =>
    intro h
    rw [Finset.prod_range_succ, ih (Nat.le_of_succ_le h)]
    have hmn : m < n := h
    have hcast : ((n.choose (m + 1) : ℝ)) * (m + 1) =
        (n.choose m : ℝ) * ((n : ℝ) - m) := by
      have h2 := congrArg (Nat.cast : ℕ → ℝ) (Nat.choose_succ_right_eq n m)
      push_cast [Nat.cast_sub hmn.le] at h2
      exact h2
    have h1 : ((m : ℝ) + 1) ≠ 0 := by positivity
    field_simp
    linarith [hcast]

/-- On valid inputs the source's `binomialCoefficient` equals the exact
binomial coefficient. -/
lemma binomialCoefficient_eq_choose {n k : ℕ} (h : k ≤ n) :
    binomialCoefficient n k = (n.choose k : ℝ) := by
  have h1 : ¬((k : ℤ) < 0 ∨ (n : ℤ) < (k : ℤ)) := by
    push_neg
    exact ⟨Int.ofNat_nonneg k, by exact_mod_cast h⟩
  unfold binomialCoefficient
  rw [if_neg h1]
  by_cases hb : (k : ℤ) = 0 ∨ (k : ℤ) = (n : ℤ)
  · rw [if_pos hb]
    rcases hb with hb | hb
    · have hk : k = 0 := by exact_mod_cast hb
      subst hk; simp
    · have hk : k = n := by exact_mod_cast hb
      subst hk; simp
  · rw [if_neg hb]
    push_neg at hb
    have hk0 : 0 < k := Nat.pos_of_ne_zero (by exact_mod_cast hb.1)
    have hkn : k < n := lt_of_le_of_ne h (by exact_mod_cast hb.2)
    have hmin : (min (k : ℤ) ((n : ℤ) - (k : ℤ))).toNat = min k (n - k) := by
      omega
    rw [hmin]
    push_cast
    rw [prod_ratio_eq_choose n (min k (n - k)) (by omega)]
    rcases le_total k (n - k) with hle | hle
    · rw [min_eq_left hle]
    · rw [min_eq_right hle, Nat.choose_symm h]

/-- On valid inputs the source's `binomialPMF` is the textbook binomial
probability mass. -/
lemma binomialPMF_eq {n k : ℕ} (h : k ≤ n) (p : ℝ) :
    binomialPMF n k p = (n.choose k : ℝ) * p ^ k * (1 - p) ^ (n - k) := by
  have h1 : ¬((k : ℤ) < 0 ∨ (n : ℤ) < (k : ℤ)) := by
    push_neg
    exact ⟨Int.ofNat_nonneg k, by exact_mod_cast h⟩
  unfold binomialPMF
  rw [if_neg h1, binomialCoefficient_eq_choose h]
  have h2 : ((k : ℤ)).toNat = k := Int.toNat_natCast k
  have h3 : ((n : ℤ) - (k : ℤ)).toNat = n - k := by omega
  rw [h2, h3]

/-- The binomial masses over `k = 0..n` sum exactly to 1 in real
arithmetic (binomial theorem). -/
lemma sum_binomialPMF (n : ℕ) (p : ℝ) :
    ∑ k ∈ Finset.range (n + 1), binomialPMF n k p = 1 := by
  have hsum : ∑ k ∈ Finset.range (n + 1), binomialPMF n k p =
      ∑ k ∈ Finset.range (n + 1), p ^ k * (1 - p) ^ (n - k) * n.choose k := by
    apply Finset.sum_congr rfl
    intro k hk
    rw [Finset.mem_range] at hk
    rw [binomialPMF_eq (Nat.lt_succ_iff.mp hk)]
    ring
  rw [hsum, ← add_pow p (1 - p) n]
  have hone : p + (1 - p) = 1 := by ring
  rw [hone, one_pow]

/-- `Finset.Icc 0 n` over `ℤ` is the image of `Finset.range (n+1)`. -/
lemma Icc_int_eq_map (n : ℕ) :
    Finset.Icc (0 : ℤ) (n : ℤ) =
      (Finset.range (n + 1)).map ⟨(Nat.cast : ℕ → ℤ), Nat.cast_injective⟩ := by
  ext z
  simp only [Finset.mem_Icc, Finset.mem_map, Finset.mem_range,
    Function.Embedding.coeFn_mk]
  constructor
  · rintro ⟨h0, hn⟩
    exact ⟨z.toNat, by omega, by omega⟩
  · rintro ⟨m, hm, rfl⟩
    omega

/-! ### Claim theorems -/

/-- C1 (counterexample): the source's `normalPDF` does not fail with a
`DomainError` on `stddev ≤ 0`.  At `(x, mean, stddev) = (0, 0, -1)` the
spec-modelled checked function errors, while the source function plainly
returns the (negative!) number `-1/√(2π)`. -/
theorem normalPDF_no_domain_check :
    normalPDFChecked 0 0 (-1) = Except.error CoreError.domainError ∧
    normalPDF 0 0 (-1) = -(Real.sqrt (2 * Real.pi))⁻¹ ∧
    normalPDF 0 0 (-1) < 0 := by
  have hpos : 0 < Real.sqrt (2 * Real.pi) := Real.sqrt_pos.mpr (by positivity)
  have hval : normalPDF 0 0 (-1) = -(Real.sqrt (2 * Real.pi))⁻¹ := by
    unfold normalPDF
    rw [show ((0 : ℝ) - 0) / (-1) = 0 by norm_num]
    rw [show (-0.5 : ℝ) * 0 ^ 2 = 0 by norm_num, Real.exp_zero]
    field_simp
  refine ⟨?_, hval, ?_⟩
  · unfold normalPDFChecked
    rw [if_pos (by norm_num)]
  · rw [hval]
    exact neg_neg_iff_pos.mpr (inv_pos.mpr hpos)

/-- C1 (amended): `normalPDF` performs no validation of `stddev`: for any
`stddev < 0` it simply evaluates the closed-form expression and returns a
strictly negative real number instead of raising an error. -/
theorem normalPDF_neg_stdDev (x mean stdDev : ℝ) (h : stdDev < 0) :
    normalPDF x mean stdDev < 0 := by
  unfold normalPDF
  apply mul_neg_of_neg_of_pos
  · apply div_neg_of_pos_of_neg one_pos
    exact mul_neg_of_neg_of_pos h (Real.sqrt_pos.mpr (by positivity))
  · exact Real.exp_pos _

/-- Witness for the amended C1 at `(0, 0, -1)`. -/
theorem normalPDF_neg_stdDev_witness :
    (-1 : ℝ) < 0 ∧ normalPDF 0 0 (-1) < 0 :=
  ⟨by norm_num, normalPDF_neg_stdDev 0 0 (-1) (by norm_num)⟩

/-- C2 (counterexample): the source's `binomialSum` does not raise an
`InvalidRangeError` on `xMin ≥ xMax`: at `(n, p, xMin, xMax) = (5, 1/2, 3, 2)`
the spec-modelled checked function errors, while the source function
returns the number 0. -/
theorem binomialSum_no_range_check :
    binomialSumChecked 5 (1/2) 3 2 = Except.error CoreError.invalidRangeError ∧
    binomialSum 5 (1/2) 3 2 = 0 := by
  constructor
  · unfold binomialSumChecked
    rw [if_pos (Or.inl (by norm_num))]
  · unfold binomialSum
    rw [show ⌊(3 : ℝ)⌋ = 3 by norm_num, show ⌊(2 : ℝ)⌋ = 2 by norm_num]
    rw [Finset.Icc_eq_empty (by omega), Finset.sum_empty]

/-- C2 (amended): `binomialSum` raises no error and returns plain numbers
on every degenerate range: 0 when `xMax < xMin`; the single mass
`binomialPMF(n, xMin, p)` when `xMin = xMax ∈ [0, n]` (which the spec
declares invalid); and `normalIntegral` likewise never raises, returning
the negated reversed integral when its bounds are reversed. -/
theorem binomialSum_degenerate (n : ℤ) (p : ℝ) (xMin xMax : ℤ) :
    (xMax < xMin → binomialSum n p xMin xMax = 0) ∧
    (0 ≤ xMin → xMin ≤ n → binomialSum n p xMin xMin = binomialPMF n xMin p) ∧
    (∀ a b mean stdDev : ℝ,
      normalIntegral a b mean stdDev = -normalIntegral b a mean stdDev) := by
  refine ⟨?_, ?_, ?_⟩
  · intro h
    unfold binomialSum
    rw [Int.floor_intCast, Int.floor_intCast]
    rw [Finset.Icc_eq_empty (by omega), Finset.sum_empty]
  · intro h0 hn
    unfold binomialSum
    rw [Int.floor_intCast]
    rw [show max 0 xMin = xMin by omega, show min n xMin = xMin by omega]
    rw [Finset.Icc_self, Finset.sum_singleton]
  · intro a b mean stdDev
    unfold normalIntegral
    ring

/-- Witness for the amended C2 at `n = 5`, `p = 1/2`, `xMin = 3`, `xMax = 2`. -/
theorem binomialSum_degenerate_witness :
    binomialSum 5 (1/2) ((3 : ℤ) : ℝ) ((2 : ℤ) : ℝ) = 0 ∧
    binomialSum 5 (1/2) ((3 : ℤ) : ℝ) ((3 : ℤ) : ℝ) = binomialPMF 5 3 (1/2) ∧
    normalIntegral 1 0 0 1 = -normalIntegral 0 1 0 1 :=
  ⟨(binomialSum_degenerate 5 (1/2) 3 2).1 (by norm_num),
   (binomialSum_degenerate 5 (1/2) 3 2).2.1 (by norm_num) (by norm_num),
   (binomialSum_degenerate 5 (1/2) 3 2).2.2 1 0 0 1⟩

/-- C3 (counterexample): `binomialSum` does not return 0 for every
reversed real range `a > b`: with `n = 5`, `p = 1/2`, `a = 5/2 > b = 9/4`
both floors equal 2, the summation range `[2, 2]` is nonempty, and the
sum is `binomialPMF(5, 2, 1/2) = 5/16 ≠ 0`. -/
theorem binomialSum_reversed_not_zero :
    (9/4 : ℝ) < 5/2 ∧ binomialSum 5 (1/2) (5/2) (9/4) = 5/16 := by
  refine ⟨by norm_num, ?_⟩
  unfold binomialSum
  rw [show ⌊(5/2 : ℝ)⌋ = 2 by norm_num, show ⌊(9/4 : ℝ)⌋ = 2 by norm_num]
  rw [show max (0 : ℤ) 2 = 2 by omega, show min (5 : ℤ) 2 = 2 by omega]
  rw [Finset.Icc_self, Finset.sum_singleton]
  unfold binomialPMF
  rw [if_neg (by omega)]
  unfold binomialCoefficient
  rw [if_neg (by omega), if_neg (by omega)]
  rw [show (min (2 : ℤ) (5 - 2)).toNat = 2 by omega]
  rw [show ((2 : ℤ)).toNat = 2 by omega, show ((5 : ℤ) - 2).toNat = 3 by omega]
  rw [Finset.prod_range_succ, Finset.prod_range_succ, Finset.prod_range_zero]
  norm_num

/-- C3 (amended): the degenerate-range behaviour holds whenever the
floors are strictly reversed, `⌊a⌋ > ⌊b⌋` — in particular for all
integer-valued bounds with `a > b` — and then `binomialSum(n,p,a,b) = 0`. -/
theorem binomialSum_reversed_floor (n : ℤ) (p a b : ℝ) (hn : 1 ≤ n)
    (hp : 0 < p ∧ p < 1) (hab : ⌊b⌋ < ⌊a⌋) : binomialSum n p a b = 0 := by
  unfold binomialSum
  rw [Finset.Icc_eq_empty (by omega), Finset.sum_empty]

/-- Witness for the amended C3 at `n = 5`, `p = 1/2`, `a = 4`, `b = 1`. -/
theorem binomialSum_reversed_floor_witness :
    1 ≤ (5 : ℤ) ∧ (0 < (1/2 : ℝ) ∧ (1/2 : ℝ) < 1) ∧
    ⌊(1 : ℝ)⌋ < ⌊(4 : ℝ)⌋ ∧ binomialSum 5 (1/2) 4 1 = 0 :=
  ⟨by norm_num, by norm_num, by norm_num,
   binomialSum_reversed_floor 5 (1/2) 4 1 (by norm_num) (by norm_num)
     (by norm_num)⟩

/-- C5: `scaleFactor` equals `maxBinomial/maxNormal` when both running
maxima are strictly positive and equals 1 otherwise; in particular when
`maxNormal = 0` it is 1 (the guarded branch never divides by zero, so in
this real-valued semantics no `NaN`/`Infinity` can arise). -/
theorem scaleFactor_guarded (n : ℕ) (p : ℝ) (m : Bool) :
    scaleFactor n p m =
      (if 0 < maxBinomial n p ∧ 0 < maxNormal n p m then
        maxBinomial n p / maxNormal n p m else 1) ∧
    (maxNormal n p m = 0 → scaleFactor n p m = 1) := by
  constructor
  · unfold scaleFactor
    by_cases h : 0 < maxNormal n p m ∧ 0 < maxBinomial n p
    · rw [if_pos h, if_pos ⟨h.2, h.1⟩]
    · rw [if_neg h, if_neg fun hc => h ⟨hc.2, hc.1⟩]
  · intro h0
    unfold scaleFactor
    rw [if_neg]
    rintro ⟨h1, -⟩
    rw [h0] at h1
    exact lt_irrefl 0 h1

/-- Witness for C5 at `n = 1`, `p = 0`, counts mode, where the degenerate
`stddev = √(1·0·1) = 0` makes every normal density value 0, hence
`maxNormal = 0` and `scaleFactor = 1`. -/
theorem scaleFactor_guarded_witness :
    maxNormal 1 0 false = 0 ∧ scaleFactor 1 0 false = 1 := by
  have h0 : maxNormal 1 0 false = 0 := by
    simp [maxNormal, stdDevForPDF, meanForPDF, xValue, normalPDF,
      List.range_succ]
  exact ⟨h0, (scaleFactor_guarded 1 0 false).2 h0⟩

/-- C7: the source's `binomialCoefficient` returns 0 off-range, 1 on the
`k = 0` and `k = n` boundaries (for every `n ≥ 0`), and otherwise the
value of the multiplicative loop over `i = 0 .. min(k, n-k) - 1`. -/
theorem binomialCoefficient_cases (n k : ℤ) :
    ((k < 0 ∨ n < k) → binomialCoefficient n k = 0) ∧
    (0 ≤ n → binomialCoefficient n 0 = 1 ∧ binomialCoefficient n n = 1) ∧
    ((0 < k ∧ k < n) → binomialCoefficient n k =
      ∏ i ∈ Finset.range (min k (n - k)).toNat, (((n : ℝ) - i) / (i + 1))) := by
  refine ⟨?_, ?_, ?_⟩
  · intro h
    unfold binomialCoefficient
    rw [if_pos h]
  · intro hn
    constructor
    · unfold binomialCoefficient
      rw [if_neg (by omega), if_pos (Or.inl rfl)]
    · unfold binomialCoefficient
      rw [if_neg (by omega), if_pos (Or.inr rfl)]
  · rintro ⟨h1, h2⟩
    unfold binomialCoefficient
    rw [if_neg (by omega), if_neg (by omega)]

/-- Witness for C7 at `n = 5` with `k = -1`, `0`, `5` and `2`. -/
theorem binomialCoefficient_cases_witness :
    binomialCoefficient 5 (-1) = 0 ∧
    (binomialCoefficient 5 0 = 1 ∧ binomialCoefficient 5 5 = 1) ∧
    binomialCoefficient 5 2 =
      ∏ i ∈ Finset.range (min (2 : ℤ) (5 - 2)).toNat,
        ((((5 : ℤ) : ℝ) - i) / (i + 1)) :=
  ⟨(binomialCoefficient_cases 5 (-1)).1 (Or.inl (by norm_num)),
   (binomialCoefficient_cases 5 0).2.1 (by norm_num),
   (binomialCoefficient_cases 5 2).2.2 ⟨by norm_num, by norm_num⟩⟩

/-- C10: `binomialCoefficient` is exactly symmetric on valid inputs:
both `k` and `n - k` reduce to the same `min(k, n-k)` loop bound, so the
two calls run the identical iteration. -/
theorem binomialCoefficient_symm (n k : ℤ) (h0 : 0 ≤ k) (hkn : k ≤ n) :
    binomialCoefficient n k = binomialCoefficient n (n - k) := by
  unfold binomialCoefficient
  by_cases hk0 : k = 0
  · subst hk0
    rw [sub_zero]
    rw [if_neg (by omega), if_pos (Or.inl rfl), if_neg (by omega),
      if_pos (Or.inr rfl)]
  by_cases hkn' : k = n
  · subst hkn'
    rw [sub_self]
    rw [if_neg (by omega), if_pos (Or.inr rfl), if_neg (by omega),
      if_pos (Or.inl rfl)]
  · rw [if_neg (by omega), if_neg (by omega), if_neg (by omega),
      if_neg (by omega)]
    rw [sub_sub_cancel, min_comm (n - k) k]

/-- Witness for C10 at `n = 5`, `k = 2`. -/
theorem binomialCoefficient_symm_witness :
    (0 : ℤ) ≤ 2 ∧ (2 : ℤ) ≤ 5 ∧
    binomialCoefficient 5 2 = binomialCoefficient 5 (5 - 2) :=
  ⟨by norm_num, by norm_num, binomialCoefficient_symm 5 2 (by norm_num)
    (by norm_num)⟩

/-- C6: for every valid `n ≥ 1` and `p ∈ (0,1)` the binomial masses sum
to 1 within `1e-9` (in this real-valued semantics the sum is exactly 1,
by the binomial theorem), and likewise `binomialSum(n, p, 0, n)`. -/
theorem binomial_total_mass (n : ℕ) (p : ℝ) (hn : 1 ≤ n)
    (hp : 0 < p ∧ p < 1) :
    |(∑ k ∈ Finset.range (n + 1), binomialPMF n k p) - 1| ≤ 1 / 10 ^ 9 ∧
    |binomialSum n p 0 n - 1| ≤ 1 / 10 ^ 9 := by
  have h1 := sum_binomialPMF n p
  have h2 : binomialSum (n : ℤ) p 0 (n : ℝ) = 1 := by
    unfold binomialSum
    rw [Int.floor_zero, Int.floor_natCast, max_self, min_self]
    rw [Icc_int_eq_map, Finset.sum_map]
    simpa only [Function.Embedding.coeFn_mk] using h1
  rw [h1, h2]
  norm_num

/-- Witness for C6 at `n = 1`, `p = 1/2`. -/
theorem binomial_total_mass_witness :
    1 ≤ 1 ∧ (0 < (1/2 : ℝ) ∧ (1/2 : ℝ) < 1) ∧
    |(∑ k ∈ Finset.range (1 + 1), binomialPMF 1 k (1/2)) - 1| ≤ 1 / 10 ^ 9 ∧
    |binomialSum 1 (1/2) 0 ((1 : ℕ) : ℝ) - 1| ≤ 1 / 10 ^ 9 :=
  ⟨le_refl 1, by norm_num, binomial_total_mass 1 (1/2) (le_refl 1)
    (by norm_num)⟩

/-- C8: the error-function approximation is odd-symmetric within the
documented `1.5e-7` tolerance: `erf(0) = 10⁻⁹` (so `|erf 0| ≤ 1.5e-7`)
and `erf(-x) = -erf(x)` exactly for `x ≠ 0`, within `2·10⁻⁹` at 0. -/
theorem erf_odd_symmetric :
    |erf 0| ≤ 15 / 10 ^ 8 ∧ ∀ x : ℝ, |erf (-x) - -erf x| ≤ 15 / 10 ^ 8 := by
  have ht0 : erfT 0 = 1 := by
    unfold erfT
    norm_num
  have h0 : erf 0 = 1 / 10 ^ 9 := by
    unfold erf erfY
    rw [if_neg (lt_irrefl 0), abs_zero, ht0]
    rw [show (-(0 : ℝ) * 0) = 0 by ring, Real.exp_zero]
    norm_num
  have hzero : |erf 0| ≤ 15 / 10 ^ 8 := by
    rw [h0, abs_of_nonneg (by norm_num : (0:ℝ) ≤ 1 / 10 ^ 9)]
    norm_num
  refine ⟨hzero, ?_⟩
  intro x
  rcases lt_trichotomy x 0 with hx | hx | hx
  · have h1 : erf (-x) = erfY |x| := by
      unfold erf
      rw [if_neg (by linarith), abs_neg]
      ring
    have h2 : erf x = -1 * erfY |x| := by
      unfold erf
      rw [if_pos hx]
    rw [h1, h2, show erfY |x| - -(-1 * erfY |x|) = 0 by ring, abs_zero]
    positivity
  · subst hx
    rw [neg_zero, h0, show (1 : ℝ) / 10 ^ 9 - -(1 / 10 ^ 9) = 2 / 10 ^ 9 by
      ring]
    rw [abs_of_nonneg (by norm_num)]
    norm_num
  · have h1 : erf (-x) = -1 * erfY |x| := by
      unfold erf
      rw [if_pos (by linarith), abs_neg]
    have h2 : erf x = erfY |x| := by
      unfold erf
      rw [if_neg (by linarith)]
      ring
    rw [h1, h2, show -1 * erfY |x| - -erfY |x| = 0 by ring, abs_zero]
    positivity

/-- C4: `buildSeries` (the source's `generateBinomialData`) returns
exactly `n+1` points with strictly increasing `x`; the `k`-th point has
the mode-dependent domain value and normal parameters, the first-pass
binomial mass as `y`, and the scaled normal density as `normalY`. -/
theorem generateBinomialData_points (n : ℕ) (p : ℝ) (m : Bool) (hn : 1 ≤ n)
    (hp : 0 < p ∧ p < 1) :
    (generateBinomialData n p m).length = n + 1 ∧
    ((generateBinomialData n p m).map SeriesPoint.x).Pairwise (· < ·) ∧
    ∀ k : ℕ, k ≤ n →
      (generateBinomialData n p m)[k]? =
        some { x := if m then (k : ℝ) / n else (k : ℝ)
               y := binomialPMF n k p
               normalY := normalPDF (if m then (k : ℝ) / n else (k : ℝ))
                   (if m then p else (n : ℝ) * p)
                   (if m then Real.sqrt (p * (1 - p) / n)
                    else Real.sqrt ((n : ℝ) * p * (1 - p))) *
                 scaleFactor n p m } := by
  have hn0 : (0 : ℝ) < n := by
    have h1 : (1 : ℝ) ≤ n := by exact_mod_cast hn
    linarith
  refine ⟨?_, ?_, ?_⟩
  · simp [generateBinomialData]
  · have hmap : (generateBinomialData n p m).map SeriesPoint.x =
        (List.range (n + 1)).map (xValue n m) := by
      simp only [generateBinomialData, List.map_map]
      rfl
    rw [hmap]
    refine (List.pairwise_lt_range (n + 1)).map (xValue n m) ?_
    intro a b hab
    cases m with
    | false =>
      show (a : ℝ) < (b : ℝ)
      exact_mod_cast hab
    | true =>
      show (a : ℝ) / n < (b : ℝ) / n
      exact (div_lt_div_iff_of_pos_right hn0).mpr (by exact_mod_cast hab)
  · intro k hk
    have hk' : k < n + 1 := Nat.lt_succ_of_le hk
    simp only [generateBinomialData, List.getElem?_map,
      List.getElem?_range hk', Option.map_some']
    cases m with
    | false => simp [xValue, meanForPDF, stdDevForPDF]
    | true => simp [xValue, meanForPDF, stdDevForPDF]

/-- Witness for C4 at `n = 1`, `p = 1/2`, counts mode. -/
theorem generateBinomialData_points_witness :
    (generateBinomialData 1 (1/2) false).length = 1 + 1 ∧
    ((generateBinomialData 1 (1/2) false).map SeriesPoint.x).Pairwise
      (· < ·) ∧
    ∀ k : ℕ, k ≤ 1 →
      (generateBinomialData 1 (1/2) false)[k]? =
        some { x := if false then (k : ℝ) / ((1 : ℕ) : ℝ) else (k : ℝ)
               y := binomialPMF 1 k (1/2)
               normalY := normalPDF
                   (if false then (k : ℝ) / ((1 : ℕ) : ℝ) else (k : ℝ))
                   (if false then (1/2 : ℝ) else ((1 : ℕ) : ℝ) * (1/2))
                   (if false then
                      Real.sqrt ((1/2 : ℝ) * (1 - 1/2) / ((1 : ℕ) : ℝ))
                    else Real.sqrt (((1 : ℕ) : ℝ) * (1/2) * (1 - 1/2))) *
                 scaleFactor 1 (1/2) false } :=
  generateBinomialData_points 1 (1/2) false (le_refl 1) (by norm_num)

/-- `List.foldl max` commutes with multiplication by a nonnegative
constant, the key fact behind the two-pass rescaling. -/
lemma foldl_max_map_mul (c : ℝ) (hc : 0 ≤ c) :
    ∀ (l : List ℝ) (a : ℝ),
      (l.map fun v => v * c).foldl max (a * c) = l.foldl max a * c := by
  intro l
  induction l with
  | nil => intro a; rfl
  | cons v l ih =>
    intro a
    simp only [List.map_cons, List.foldl_cons]
    rw [← max_mul_of_nonneg a v hc]
    exact ih (max a v)

/-- C9: when both running maxima are strictly positive, the maximum of
the `normalY` column of the series (computed as the code computes
maxima, by folding `max` from 0) equals the maximum of the `y` column:
the scaled normal peak coincides with the binomial peak height. -/
theorem generateBinomialData_peak_match (n : ℕ) (p : ℝ) (m : Bool)
    (hn : 1 ≤ n) (hp : 0 < p ∧ p < 1) (hB : 0 < maxBinomial n p)
    (hN : 0 < maxNormal n p m) :
    ((generateBinomialData n p m).map SeriesPoint.normalY).foldl max 0 =
      ((generateBinomialData n p m).map SeriesPoint.y).foldl max 0 := by
  have hy : (generateBinomialData n p m).map SeriesPoint.y =
      binomialProbs n p := by
    simp only [generateBinomialData, binomialProbs, List.map_map]
    rfl
  have hscale : scaleFactor n p m = maxBinomial n p / maxNormal n p m := by
    unfold scaleFactor
    rw [if_pos ⟨hN, hB⟩]
  have hnormal : (generateBinomialData n p m).map SeriesPoint.normalY =
      ((List.range (n + 1)).map fun k =>
        normalPDF (xValue n m k) (meanForPDF n p m) (stdDevForPDF n p m)).map
        fun v => v * scaleFactor n p m := by
    simp only [generateBinomialData, List.map_map]
    rfl
  have hc : (0 : ℝ) ≤ maxBinomial n p / maxNormal n p m :=
    le_of_lt (div_pos hB hN)
  rw [hy, hnormal, hscale]
  calc (((List.range (n + 1)).map fun k =>
        normalPDF (xValue n m k) (meanForPDF n p m) (stdDevForPDF n p m)).map
        fun v => v * (maxBinomial n p / maxNormal n p m)).foldl max 0
      = (((List.range (n + 1)).map fun k =>
          normalPDF (xValue n m k) (meanForPDF n p m)
            (stdDevForPDF n p m)).map
          fun v => v * (maxBinomial n p / maxNormal n p m)).foldl max
            (0 * (maxBinomial n p / maxNormal n p m)) := by rw [zero_mul]
    _ = ((List.range (n + 1)).map fun k =>
          normalPDF (xValue n m k) (meanForPDF n p m)
            (stdDevForPDF n p m)).foldl max 0 *
          (maxBinomial n p / maxNormal n p m) :=
        foldl_max_map_mul _ hc _ 0
    _ = maxNormal n p m * (maxBinomial n p / maxNormal n p m) := rfl
    _ = maxBinomial n p := by
        rw [mul_comm, div_mul_cancel₀ _ (ne_of_gt hN)]
    _ = (binomialProbs n p).foldl max 0 := rfl

/-- Witness for C9 at `n = 1`, `p = 1/2`, counts mode, where both maxima
are strictly positive. -/
theorem generateBinomialData_peak_match_witness :
    0 < maxBinomial 1 (1/2) ∧ 0 < maxNormal 1 (1/2) false ∧
    ((generateBinomialData 1 (1/2) false).map SeriesPoint.normalY).foldl
        max 0 =
      ((generateBinomialData 1 (1/2) false).map SeriesPoint.y).foldl
        max 0 := by
  have hpmf0 : binomialPMF ((1 : ℕ) : ℤ) ((0 : ℕ) : ℤ) (1/2 : ℝ) = 1/2 := by
    rw [binomialPMF_eq (by norm_num : (0 : ℕ) ≤ 1)]
    norm_num
  have hB : 0 < maxBinomial 1 (1/2 : ℝ) := by
    have hval : maxBinomial 1 (1/2 : ℝ) =
        max (max 0 (binomialPMF ((1 : ℕ) : ℤ) ((0 : ℕ) : ℤ) (1/2 : ℝ)))
          (binomialPMF ((1 : ℕ) : ℤ) ((1 : ℕ) : ℤ) (1/2 : ℝ)) := by
      unfold maxBinomial binomialProbs
      rw [show List.range 2 = [0, 1] from rfl]
      rfl
    rw [hval, hpmf0]
    have hle : (0 : ℝ) < max 0 (1/2 : ℝ) := by
      rw [max_eq_right (by norm_num : (0:ℝ) ≤ 1/2)]
      norm_num
    exact lt_of_lt_of_le hle (le_max_left _ _)
  have hN : 0 < maxNormal 1 (1/2 : ℝ) false := by
    have hstd : stdDevForPDF 1 (1/2 : ℝ) false =
        Real.sqrt (((1 : ℕ) : ℝ) * (1/2) * (1 - 1/2)) := rfl
    have hsq : 0 < Real.sqrt (((1 : ℕ) : ℝ) * (1/2) * (1 - 1/2)) :=
      Real.sqrt_pos.mpr (by norm_num)
    have h2pi : 0 < Real.sqrt (2 * Real.pi) :=
      Real.sqrt_pos.mpr (by positivity)
    have hf0 : 0 < normalPDF (xValue 1 false 0) (meanForPDF 1 (1/2) false)
        (stdDevForPDF 1 (1/2) false) := by
      rw [hstd]
      unfold normalPDF
      exact mul_pos (div_pos one_pos (mul_pos hsq h2pi)) (Real.exp_pos _)
    have hfold : maxNormal 1 (1/2 : ℝ) false =
        max (max 0 (normalPDF (xValue 1 false 0) (meanForPDF 1 (1/2) false)
            (stdDevForPDF 1 (1/2) false)))
          (normalPDF (xValue 1 false 1) (meanForPDF 1 (1/2) false)
            (stdDevForPDF 1 (1/2) false)) := by
      unfold maxNormal
      rw [show List.range 2 = [0, 1] from rfl]
      rfl
    rw [hfold]
    exact lt_of_lt_of_le hf0 (le_trans (le_max_right _ _) (le_max_left _ _))
  exact ⟨hB, hN, generateBinomialData_peak_match 1 (1/2) false (le_refl 1)
    (by norm_num) hB hN⟩

end CLT
